import Mathlib

set_option linter.unusedSectionVars false

/-
Verification of the ToTheMoon data pipeline (src/data/data_download.py).

The program fetches minute-level klines for a list of trading pairs,
computes RSI(14) and Bollinger Band(21) columns over the close prices with
pandas, projects the frame to {unix, RSI, lowerband, upperband, close} and
writes one CSV per pair.

The embedding below models:
  * pandas float cells as an extended value type `Xv` over a linear ordered
    field (NaN, +inf, -inf, or a finite value), with arithmetic following
    IEEE-754 semantics as exposed by numpy/pandas (warnings are suppressed
    by the script, so 1/0 = inf and 0/0 = NaN rather than an error);
  * pandas Series as `List (Xv f)` and the rolling operations used by
    set_RSI / set_BB (rolling(window=p).mean() and .std() with the default
    min_periods = p, so any window that is short or contains NaN gives NaN;
    .std() is the sample standard deviation, ddof = 1);
  * a DataFrame as an association list of named columns, with pandas
    column assignment (replace in place, or append a new column) and
    column projection df[[names]];
  * the fetch / driver layer (fill_with_latest_data, clean_dataset,
    download_data) as functions over an environment mapping request URLs
    to exchange responses, with Python exceptions modelled by `Except`:
    the only try/except in the script wraps `to_csv` + `log_success`, so
    only write failures are caught; everything raised earlier propagates.
-/

namespace ToTheMoon

/-- Extended value of a pandas float64 cell: NaN, +inf, -inf or a finite
number of the underlying field (floats are modelled exactly by rationals
or reals; rounding is not modelled). -/
inductive Xv (f : Type) where
  | nan : Xv f
  | pinf : Xv f
  | ninf : Xv f
  | fin : f → Xv f
deriving DecidableEq

variable {f : Type} [LinearOrderedField f]

/-- IEEE negation: NaN stays NaN, infinities swap sign. -/
def xneg : Xv f → Xv f
  | Xv.nan => Xv.nan
  | Xv.pinf => Xv.ninf
  | Xv.ninf => Xv.pinf
  | Xv.fin a => Xv.fin (-a)

/-- IEEE addition: NaN propagates, inf + (-inf) = NaN. -/
def xadd : Xv f → Xv f → Xv f
  | Xv.nan, _ => Xv.nan
  | _, Xv.nan => Xv.nan
  | Xv.pinf, Xv.ninf => Xv.nan
  | Xv.ninf, Xv.pinf => Xv.nan
  | Xv.pinf, _ => Xv.pinf
  | _, Xv.pinf => Xv.pinf
  | Xv.ninf, _ => Xv.ninf
  | _, Xv.ninf => Xv.ninf
  | Xv.fin a, Xv.fin b => Xv.fin (a + b)

/-- IEEE subtraction, defined as in floating point by adding the negation. -/
def xsub (a b : Xv f) : Xv f := xadd a (xneg b)

/-- IEEE multiplication: NaN propagates, inf * 0 = NaN, signs multiply. -/
def xmul : Xv f → Xv f → Xv f
  | Xv.nan, _ => Xv.nan
  | _, Xv.nan => Xv.nan
  | Xv.pinf, Xv.pinf => Xv.pinf
  | Xv.pinf, Xv.ninf => Xv.ninf
  | Xv.ninf, Xv.pinf => Xv.ninf
  | Xv.ninf, Xv.ninf => Xv.pinf
  | Xv.pinf, Xv.fin b => if b = 0 then Xv.nan else if 0 < b then Xv.pinf else Xv.ninf
  | Xv.fin a, Xv.pinf => if a = 0 then Xv.nan else if 0 < a then Xv.pinf else Xv.ninf
  | Xv.ninf, Xv.fin b => if b = 0 then Xv.nan else if 0 < b then Xv.ninf else Xv.pinf
  | Xv.fin a, Xv.ninf => if a = 0 then Xv.nan else if 0 < a then Xv.ninf else Xv.pinf
  | Xv.fin a, Xv.fin b => Xv.fin (a * b)

/-- IEEE division as numpy performs it with warnings suppressed (the script
calls warnings.filterwarnings("ignore")): a/0 is +-inf for a nonzero (the
model has a single unsigned zero, which numpy treats as +0), 0/0 is NaN,
a/inf is 0, inf/inf is NaN, NaN propagates. -/
def xdiv : Xv f → Xv f → Xv f
  | Xv.nan, _ => Xv.nan
  | _, Xv.nan => Xv.nan
  | Xv.pinf, Xv.pinf => Xv.nan
  | Xv.pinf, Xv.ninf => Xv.nan
  | Xv.ninf, Xv.pinf => Xv.nan
  | Xv.ninf, Xv.ninf => Xv.nan
  | Xv.pinf, Xv.fin b => if 0 ≤ b then Xv.pinf else Xv.ninf
  | Xv.ninf, Xv.fin b => if 0 ≤ b then Xv.ninf else Xv.pinf
  | Xv.fin _, Xv.pinf => Xv.fin 0
  | Xv.fin _, Xv.ninf => Xv.fin 0
  | Xv.fin a, Xv.fin b =>
      if b = 0 then (if a = 0 then Xv.nan else if 0 < a then Xv.pinf else Xv.ninf)
      else Xv.fin (a / b)

/-- IEEE comparison used by the boolean masks `dataset['Up'] < 0` and
`dataset['Down'] > 0`: NaN is unordered, every comparison with it is False. -/
def xlt : Xv f → Xv f → Bool
  | Xv.nan, _ => false
  | _, Xv.nan => false
  | Xv.pinf, _ => false
  | _, Xv.pinf => true
  | Xv.ninf, Xv.ninf => false
  | Xv.ninf, Xv.fin _ => true
  | Xv.fin _, Xv.ninf => false
  | Xv.fin a, Xv.fin b => decide (a < b)

/-- IEEE absolute value, used by `abs(new_dataset['Down'])`. -/
def xabs : Xv f → Xv f
  | Xv.nan => Xv.nan
  | Xv.pinf => Xv.pinf
  | Xv.ninf => Xv.pinf
  | Xv.fin a => Xv.fin |a|

/-- Reading a Series cell by row position; positions outside the series are
treated as the missing value. -/
def entry (xs : List (Xv f)) (i : ℕ) : Xv f := xs.getD i Xv.nan

/-- pandas `Series.diff()`: first entry NaN, then elementwise difference
with the previous row (line 57 of the source). -/
def sdiff : List (Xv f) → List (Xv f)
  | [] => []
  | x :: xs => Xv.nan :: List.zipWith xsub xs (x :: xs)

/-- The in-place mask `new_dataset.loc[(new_dataset['Up'] < 0), 'Up'] = 0`
(line 59): entries strictly below zero are replaced by 0, NaN compares
False and is kept. -/
def clampNegToZero (xs : List (Xv f)) : List (Xv f) :=
  xs.map (fun v => if xlt v (Xv.fin 0) then Xv.fin 0 else v)

/-- The in-place mask `new_dataset.loc[(new_dataset['Down'] > 0), 'Down'] = 0`
(line 62): entries strictly above zero are replaced by 0. -/
def clampPosToZero (xs : List (Xv f)) : List (Xv f) :=
  xs.map (fun v => if xlt (Xv.fin 0) v then Xv.fin 0 else v)

/-- Elementwise absolute value `abs(new_dataset['Down'])` (line 63). -/
def xabsS (xs : List (Xv f)) : List (Xv f) := xs.map xabs

/-- Sum of a window of cells with IEEE propagation (NaN poisons the sum,
matching rolling's min_periods = window behaviour: a full window holding a
NaN yields NaN). -/
def xsum (l : List (Xv f)) : Xv f := l.foldr xadd (Xv.fin 0)

/-- The trailing window of length p ending at row i (rows i+1-p .. i). -/
def window (p i : ℕ) (xs : List (Xv f)) : List (Xv f) :=
  (xs.take (i + 1)).drop (i + 1 - p)

/-- pandas `Series.rolling(window=p).mean()` with the default
min_periods = p (lines 65-66, 75): NaN until the window is full, then the
window sum divided by p; a NaN inside a full window propagates to NaN. -/
def rollingMean (p : ℕ) (xs : List (Xv f)) : List (Xv f) :=
  (List.range xs.length).map
    (fun i => if i + 1 < p then Xv.nan else xdiv (xsum (window p i xs)) (Xv.fin (p : f)))

/-- The scalar expression `100 - (100 / (1 + RS))` applied to one RS cell
(line 68). -/
def rsiVal (r : Xv f) : Xv f :=
  xsub (Xv.fin 100) (xdiv (Xv.fin 100) (xadd (Xv.fin 1) r))

/-- The Diff column of set_RSI (line 57), as a function of the close column. -/
def diff_col (close : List (Xv f)) : List (Xv f) := sdiff close

/-- The Up column after its mask (lines 58-59). -/
def up_col (close : List (Xv f)) : List (Xv f) := clampNegToZero (diff_col close)

/-- The Down column after its mask and abs (lines 61-63). -/
def down_col (close : List (Xv f)) : List (Xv f) := xabsS (clampPosToZero (diff_col close))

/-- The avg_up column (line 65). -/
def avg_up_col (p : ℕ) (close : List (Xv f)) : List (Xv f) := rollingMean p (up_col close)

/-- The avg_down column (line 66). -/
def avg_down_col (p : ℕ) (close : List (Xv f)) : List (Xv f) := rollingMean p (down_col close)

/-- The RS column `avg_up / avg_down` (line 67). -/
def rs_col (p : ℕ) (close : List (Xv f)) : List (Xv f) :=
  List.zipWith xdiv (avg_up_col p close) (avg_down_col p close)

/-- The RSI column `100 - (100 / (1 + RS))` (line 68). -/
def rsi_col (p : ℕ) (close : List (Xv f)) : List (Xv f) := (rs_col p close).map rsiVal

/-- IEEE square root over the reals: NaN for NaN and for negative inputs
(including -inf), +inf for +inf, otherwise the real square root. -/
noncomputable def xsqrt : Xv ℝ → Xv ℝ
  | Xv.nan => Xv.nan
  | Xv.pinf => Xv.pinf
  | Xv.ninf => Xv.nan
  | Xv.fin a => if a < 0 then Xv.nan else Xv.fin (Real.sqrt a)

/-- The sample standard deviation of one full window of p cells, as pandas
computes it (ddof = 1): sqrt of the sum of squared deviations from the
window mean divided by p - 1; NaN propagates through the IEEE operations. -/
noncomputable def windowStd (p : ℕ) (w : List (Xv ℝ)) : Xv ℝ :=
  xsqrt (xdiv (xsum (w.map (fun x =>
      xmul (xsub x (xdiv (xsum w) (Xv.fin (p : ℝ)))) (xsub x (xdiv (xsum w) (Xv.fin (p : ℝ)))))))
    (Xv.fin ((p : ℝ) - 1)))

/-- pandas `Series.rolling(window=p).std()` with the default
min_periods = p and ddof = 1 (line 76): NaN until the window is full, then
the sample standard deviation of the window. -/
noncomputable def rollingStd (p : ℕ) (xs : List (Xv ℝ)) : List (Xv ℝ) :=
  (List.range xs.length).map
    (fun i => if i + 1 < p then Xv.nan else windowStd p (window p i xs))

/-- The upperband column `20MA + 2*SD` (line 77), as a function of the
close column. -/
noncomputable def upper_col (p : ℕ) (close : List (Xv ℝ)) : List (Xv ℝ) :=
  List.zipWith xadd (rollingMean p close) ((rollingStd p close).map (fun s => xmul (Xv.fin 2) s))

/-- The lowerband column `20MA - 2*SD` (line 78). -/
noncomputable def lower_col (p : ℕ) (close : List (Xv ℝ)) : List (Xv ℝ) :=
  List.zipWith xsub (rollingMean p close) ((rollingStd p close).map (fun s => xmul (Xv.fin 2) s))

/-- A pandas DataFrame, modelled as an association list of named columns. -/
def Frame (f : Type) : Type := List (String × List (Xv f))

/-- Reading a frame column by name; a missing column reads as empty (the
real pipeline only reads columns it has already created). -/
def getColD (n : String) : Frame f → List (Xv f)
  | [] => []
  | (m, w) :: rest => if m = n then w else getColD n rest

/-- pandas column assignment `df[name] = values`: replace the column in
place when the name exists, otherwise append it as the last column. -/
def setCol : Frame f → String → List (Xv f) → Frame f
  | [], n, v => [(n, v)]
  | (m, w) :: rest, n, v => if m = n then (n, v) :: rest else (m, w) :: setCol rest n v

/-- pandas projection `df[[names]]` (line 95): a fresh frame holding
exactly the requested columns in the requested order. -/
def projectCols (d : Frame f) (names : List String) : Frame f :=
  names.map (fun n => (n, getColD n d))

/-- The frame built by the fill_with_latest_data append loop (lines 49-52):
one unix column and one close column, in that order. -/
def fetchedFrame (us cs : List (Xv f)) : Frame f :=
  [(("unix" : String), us), (("close" : String), cs)]

/-- set_RSI (lines 56-72): the sequence of column assignments performed on
the frame, one `setCol` per pandas statement. The two prints do not modify
the frame and are not modelled. -/
def set_RSI (d : Frame f) (period : ℕ) : Frame f :=
  let d1 := setCol d ("Diff") (sdiff (getColD ("close") d))
  let d2 := setCol d1 ("Up") (getColD ("Diff") d1)
  let d3 := setCol d2 ("Up") (clampNegToZero (getColD ("Up") d2))
  let d4 := setCol d3 ("Down") (getColD ("Diff") d3)
  let d5 := setCol d4 ("Down") (clampPosToZero (getColD ("Down") d4))
  let d6 := setCol d5 ("Down") (xabsS (getColD ("Down") d5))
  let d7 := setCol d6 ("avg_up") (rollingMean period (getColD ("Up") d6))
  let d8 := setCol d7 ("avg_down") (rollingMean period (getColD ("Down") d7))
  let d9 := setCol d8 ("RS") (List.zipWith xdiv (getColD ("avg_up") d8) (getColD ("avg_down") d8))
  setCol d9 ("RSI") ((getColD ("RS") d9).map rsiVal)

/-- set_BB (lines 74-81): the sequence of column assignments performed on
the frame. The two prints do not modify the frame and are not modelled. -/
noncomputable def set_BB (d : Frame ℝ) (period : ℕ) : Frame ℝ :=
  let d1 := setCol d ("20MA") (rollingMean period (getColD ("close") d))
  let d2 := setCol d1 ("SD") (rollingStd period (getColD ("close") d1))
  let d3 := setCol d2 ("upperband")
    (List.zipWith xadd (getColD ("20MA") d2) ((getColD ("SD") d2).map (fun s => xmul (Xv.fin 2) s)))
  setCol d3 ("lowerband")
    (List.zipWith xsub (getColD ("20MA") d3) ((getColD ("SD") d3).map (fun s => xmul (Xv.fin 2) s)))

/-- feature_engineering (lines 83-96): RSI with period 14, Bollinger Bands
with period 21, then projection to the five output columns. -/
noncomputable def feature_engineering (d : Frame ℝ) : Frame ℝ :=
  let nd := set_RSI d 14
  let nd2 := set_BB nd 21
  projectCols nd2 [("unix"), ("RSI"), ("lowerband"), ("upperband"), ("close")]

/-- Serialization of one cell by `DataFrame.to_csv` (line 36): pandas
renders a missing value with the default na_rep, the empty string; the
infinities render as inf strings; a finite float is rendered by the float
formatter, which the model keeps abstract as `fmt`. -/
def csvField (fmt : ℝ → String) : Xv ℝ → String
  | Xv.nan => ""
  | Xv.pinf => "inf"
  | Xv.ninf => "-inf"
  | Xv.fin r => fmt r

/-- The header line written by to_csv with index=False: the column names
joined by commas. -/
def headerLine (d : Frame ℝ) : String :=
  String.intercalate (",") (d.map Prod.fst)

/-- One data line written by to_csv: the cells of row i of every column,
serialized and joined by commas. -/
def csvRow (fmt : ℝ → String) (d : Frame ℝ) (i : ℕ) : String :=
  String.intercalate (",") (d.map (fun c => csvField fmt (entry c.2 i)))

/-- The number of data rows of a frame. -/
def nRows (d : Frame ℝ) : ℕ := (d.map (fun c => c.2.length)).foldr max 0

/-- `DataFrame.to_csv(filename, index=False)` (line 36) as the list of
lines written to the file: header first, then one line per row. -/
def to_csv (fmt : ℝ → String) (d : Frame ℝ) : List String :=
  headerLine d :: (List.range (nRows d)).map (csvRow fmt d)

/-- One element of a parsed JSON kline record: the exchange sends numbers
(open time) and decimal strings (prices); when a dict is iterated instead,
indexing its string keys yields one-character strings. -/
inductive JVal where
  | num : Int → JVal
  | str : String → JVal
deriving DecidableEq

/-- The Python exceptions that the script can raise, by raising site:
requests.get (connection errors), json.loads (non-JSON body), record
indexing (record[4] on a short record or dict key), float() (a non-numeric
string), time_dict[freq] (an unknown frequency key). -/
inductive PyErr where
  | requestException : PyErr
  | jsonDecodeError : PyErr
  | indexError : PyErr
  | valueError : PyErr
  | keyError : PyErr
deriving DecidableEq

/-- The possible outcomes of the GET issued for one request URL: the call
itself raises, the body is not JSON, or json.loads yields an array of
records or an object (the exchange error payload), whose iteration yields
its keys. -/
inductive Response where
  | netError : Response
  | nonJson : Response
  | jsonArray : List (List JVal) → Response
  | jsonObject : List String → Response

/-- One row appended to the dataset by fill_with_latest_data (line 50):
the raw record[0] and the close price parsed by float(record[4]). -/
structure Row where
  unix : JVal
  close : ℚ
deriving DecidableEq

/-- Value of one decimal digit character. -/
def digitVal (c : Char) : ℕ := c.toNat - Char.toNat ('0')

/-- Value of a string of decimal digit characters. -/
def digitsVal (l : List Char) : ℕ := l.foldl (fun acc c => 10 * acc + digitVal c) 0

/-- Python float(s) on the decimal strings the exchange sends: an optional
sign, an integer part and an optional fractional part separated by one
dot, at least one digit overall; anything else raises ValueError (None
here). Exponent forms are not modelled; the exchange sends plain decimal
price strings. -/
def parseDecimal (s : String) : Option ℚ :=
  let l0 := s.toList
  let sign : ℚ := match l0 with
    | c :: _ => if c = ('-') then -1 else 1
    | [] => 1
  let l1 : List Char := match l0 with
    | c :: rest => if c = ('-') then rest else if c = ('+') then rest else l0
    | [] => []
  let ip := l1.takeWhile (fun c => !(c = ('.')))
  let rest := l1.dropWhile (fun c => !(c = ('.')))
  let frac := rest.drop 1
  if ip.all Char.isDigit && frac.all Char.isDigit && decide (0 < ip.length + frac.length)
     && decide (rest.length ≤ 1 + frac.length) then
    some (sign * ((digitsVal ip : ℚ) + (digitsVal frac : ℚ) / ((10 : ℚ) ^ frac.length)))
  else none

/-- Python float() applied to a parsed JSON value: exact on integers,
parseDecimal on strings. -/
def pyFloat : JVal → Option ℚ
  | JVal.num n => some ((n : ℚ))
  | JVal.str s => parseDecimal s

/-- remove_extension (lines 26-27): `fname[:fname.index(".")]`, the prefix
of the characters before the first dot. The Python version raises
ValueError when no dot exists; the pipeline only ever calls it on
filenames of the form pair + ".csv", which always hold a dot, and on that
domain this total model agrees with it. -/
def remove_extension (fname : String) : String :=
  String.mk (fname.toList.takeWhile (fun c => !(c = ('.'))))

/-- The request URL built on line 45:
"https://api.binance.com/api/v3/klines?symbol={}&interval=1m".format(fname)
with fname = remove_extension(fname_ext). The interval query parameter is
the fixed literal 1m. -/
def fetch_url (fname_ext : String) : String :=
  ("https://api.binance.com/api/v3/klines?symbol=") ++ remove_extension fname_ext
    ++ ("&interval=1m")

/-- Building one dataset row from one record (line 50): the dict literal
evaluates record[0] first (IndexError on an empty record), then
float(record[4]) (IndexError on a record shorter than 5 entries,
ValueError on a non-numeric entry). -/
def buildRow (record : List JVal) : Except PyErr Row := do
  let u ← match record.get? 0 with
    | some v => Except.ok v
    | none => Except.error PyErr.indexError
  let cRaw ← match record.get? 4 with
    | some v => Except.ok v
    | none => Except.error PyErr.indexError
  let c ← match pyFloat cRaw with
    | some q => Except.ok q
    | none => Except.error PyErr.valueError
  Except.ok ⟨u, c⟩

/-- The record sequence the for loop of lines 49-52 iterates over: the
records themselves for a JSON array; for a JSON object (the exchange error
payload) Python iterates the keys, and indexing a key string yields its
characters as one-character strings. -/
def iterRecords : Response → Except PyErr (List (List JVal))
  | Response.netError => Except.error PyErr.requestException
  | Response.nonJson => Except.error PyErr.jsonDecodeError
  | Response.jsonArray records => Except.ok records
  | Response.jsonObject keys =>
      Except.ok (keys.map (fun k => k.toList.map (fun c => JVal.str (String.mk [c]))))

/-- fill_with_latest_data (lines 43-53): build the request URL from the
filename, issue the GET (the environment `env` maps each URL to its
response), parse, and append one row per record. Any exception raised
here propagates to the caller; there is no try/except in this function. -/
def fill_with_latest_data (fname_ext : String) (env : String → Response) :
    Except PyErr (List Row) := do
  let records ← iterRecords (env (fetch_url fname_ext))
  records.mapM buildRow

/-- One line printed by log_success or log_failure (lines 20-24), tagged
with the filename it names. -/
inductive LogEntry where
  | success : String → LogEntry
  | failure : String → LogEntry
deriving DecidableEq

/-- clean_dataset (lines 29-41): fetch (exceptions propagate, the fetch is
outside the try block), run feature_engineering, then try to write the
CSV. The feature_engineering call can itself raise: when the fetch
succeeded with zero records, the append loop never ran, the frame is
still the columnless pd.DataFrame() of line 30, and the column read
new_dataset['close'] on line 57 raises KeyError('close'), which nothing
catches; with at least one record the frame has its unix and close
columns and the indicator computation (modelled column-by-column by
feature_engineering above) completes for any length. Only the write is
inside try/except: a write failure is logged and the function returns
None; on success the dataset is returned and logged. The returned value
stands for the dataset handed back to download_data (whose content
downstream code never reads, since show_graph is False). -/
def clean_dataset (filename : String) (env : String → Response) (writeOk : Bool) :
    Except PyErr (Option (List Row) × List LogEntry) :=
  match fill_with_latest_data filename env with
  | Except.error e => Except.error e
  | Except.ok rows =>
      if rows.isEmpty then
        Except.error PyErr.keyError
      else if writeOk then
        Except.ok (some rows, [LogEntry.success filename])
      else
        Except.ok (none, [LogEntry.failure filename])

/-- The time_dict lookup of line 101:
{"hour": "1h", "min": "minute", "day": "d"}[freq]; an unknown key raises
KeyError. The looked-up value is never used afterwards. -/
def timeDict (freq : String) : Option String :=
  if freq = ("hour") then some ("1h")
  else if freq = ("min") then some ("minute")
  else if freq = ("day") then some ("d")
  else none

/-- The filename extension appended to each pair (lines 102, 107). -/
def extension : String := ".csv"

/-- The per-pair loop of download_data (lines 106-109): process each pair
in order with clean_dataset; an exception raised for one pair aborts the
whole loop (there is no try/except around the loop body). show_graph is
False at module level and never set, so the plot branch is dead code. The
result collects the log lines printed for the processed pairs. -/
def runPairs (pairs : List String) (env : String → Response) (writeOk : String → Bool) :
    Except PyErr (List LogEntry) :=
  match pairs with
  | [] => Except.ok []
  | p :: rest =>
      match clean_dataset (p ++ extension) env (writeOk p) with
      | Except.error e => Except.error e
      | Except.ok r =>
          match runPairs rest env writeOk with
          | Except.error e => Except.error e
          | Except.ok logs => Except.ok (r.2 ++ logs)

/-- download_data (lines 98-109): look up the frequency in time_dict
(KeyError on an unknown selector; the result is otherwise unused and in
particular never reaches the request URL), then run the per-pair loop. -/
def download_data (pairs : List String) (freq : String) (env : String → Response)
    (writeOk : String → Bool) : Except PyErr (List LogEntry) :=
  match timeDict freq with
  | none => Except.error PyErr.keyError
  | some _frequency => runPairs pairs env writeOk

/-- The URL of the fetch request issued for one pair on one run of
download_data with frequency selector freq: download_data builds
filename = pair + extension (line 107) and fill_with_latest_data fetches
fetch_url(filename) (line 45). The freq argument is accepted by
download_data but never reaches the URL. -/
def pair_fetch_url (pair : String) (_freq : String) : String :=
  fetch_url (pair ++ extension)

theorem takeWhile_append_all {β : Type} (p : β → Bool) (l r : List β)
    (hl : ∀ c ∈ l, p c = true) :
    (l ++ r).takeWhile p = l ++ r.takeWhile p := by
  induction l with
  | nil => rfl
  | cons a l ih =>
      have ha := hl a (List.mem_cons_self a l)
      simp only [List.cons_append, List.takeWhile_cons, ha, if_true]
      rw [ih (fun c hc => hl c (List.mem_cons_of_mem a hc))]

theorem remove_extension_append (s : String) (h : ('.' : Char) ∉ s.toList) :
    remove_extension (s ++ (".csv")) = s := by
  unfold remove_extension
  have hdata : (s ++ (".csv")).toList = s.toList ++ (('.') :: ('c') :: ('s') :: ('v') :: []) := by
    show (s ++ (".csv")).data = s.data ++ _
    rw [String.data_append]
  rw [hdata, takeWhile_append_all _ _ _ (fun c hc => by
    simp only [Bool.not_eq_true', decide_eq_false_iff_not]
    exact fun hcc => h (hcc ▸ hc))]
  have hstop : ((('.') :: ('c') :: ('s') :: ('v') :: []).takeWhile
      (fun c => !(c = ('.')))) = ([] : List Char) := by decide
  rw [hstop, List.append_nil]
  show String.mk s.data = s
  cases s
  rfl

/-- C10: for every pair symbol string without a dot, deriving the output
filename as symbol + ".csv" and stripping the prefix before the first dot
recovers the symbol, so the symbol placed in the fetch URL is exactly the
pair given on the command line. -/
theorem remove_extension_roundtrip (s : String) (h : ('.' : Char) ∉ s.toList) :
    remove_extension (s ++ (".csv")) = s ∧
    fetch_url (s ++ (".csv")) =
      ("https://api.binance.com/api/v3/klines?symbol=") ++ s ++ ("&interval=1m") := by
  refine ⟨remove_extension_append s h, ?_⟩
  unfold fetch_url
  rw [remove_extension_append s h]

theorem remove_extension_roundtrip_witness :
    (('.' : Char) ∉ ("BTCUSDT" : String).toList) ∧
    (remove_extension (("BTCUSDT" : String) ++ (".csv")) = ("BTCUSDT") ∧
     fetch_url (("BTCUSDT" : String) ++ (".csv")) =
       ("https://api.binance.com/api/v3/klines?symbol=") ++ ("BTCUSDT") ++ ("&interval=1m")) :=
  ⟨by decide, remove_extension_roundtrip ("BTCUSDT") (by decide)⟩

/-- C8: for every frequency selector accepted by the CLI, the fetch
request for a pair uses the fixed 1-minute interval: the request URL ends
in the literal query parameter interval=1m and is the same string for
every accepted selector; the selector only passes the time_dict lookup. -/
theorem fetch_interval_fixed (pair freq : String)
    (hf : freq ∈ [("min" : String), ("hour"), ("day")])
    (hd : ('.' : Char) ∉ pair.toList) :
    (timeDict freq).isSome = true ∧
    pair_fetch_url pair freq =
      ("https://api.binance.com/api/v3/klines?symbol=") ++ pair ++ ("&interval=1m") ∧
    (∀ freq2 : String, pair_fetch_url pair freq2 = pair_fetch_url pair freq) := by
  refine ⟨?_, ?_, fun freq2 => rfl⟩
  · simp only [List.mem_cons, List.not_mem_nil, or_false] at hf
    rcases hf with rfl | rfl | rfl
    · rfl
    · rfl
    · rfl
  · show fetch_url (pair ++ extension) = _
    exact (remove_extension_roundtrip pair hd).2

theorem fetch_interval_fixed_witness :
    (("hour" : String) ∈ [("min" : String), ("hour"), ("day")]) ∧
    (('.' : Char) ∉ ("BTCUSDT" : String).toList) ∧
    ((timeDict ("hour")).isSome = true ∧
     pair_fetch_url ("BTCUSDT") ("hour") =
       ("https://api.binance.com/api/v3/klines?symbol=") ++ ("BTCUSDT") ++ ("&interval=1m") ∧
     (∀ freq2 : String, pair_fetch_url ("BTCUSDT") freq2 = pair_fetch_url ("BTCUSDT") ("hour"))) :=
  ⟨by decide, by decide, fetch_interval_fixed ("BTCUSDT") ("hour") (by decide) (by decide)⟩

/-- C1: the claim says a failing fetch (here: the exchange answers the
documented error object, whose dict iteration makes record[4] raise
IndexError) is caught at the per-pair boundary, logged, and the run
continues; evaluating the code on that input shows the exception instead
propagates out of download_data uncaught: the whole run aborts with
IndexError, nothing is logged for the pair, and the second pair is never
processed. -/
theorem download_data_crashes_on_error_object :
    download_data [("BTCUSDT" : String), ("ETHUSDT")] ("min")
      (fun _ => Response.jsonObject [("code"), ("msg")]) (fun _ => true) =
      Except.error PyErr.indexError := by
  rfl

theorem clean_dataset_keyerror_on_empty_fetch (filename : String) (writeOk : Bool) :
    clean_dataset filename (fun _ => Response.jsonArray []) writeOk =
      Except.error PyErr.keyError :=
  rfl

/-- C7: whenever every fetch succeeds with at least one candle (so that
feature_engineering finds its close column and the pipeline reaches the
write), a write failure for any pair is caught inside clean_dataset and
logged as a failure line for that pair's filename, and every pair of the
list is still processed: download_data returns normally with exactly one
log line per pair, success or failure according to that pair's write
outcome. -/
theorem write_failure_isolated (pairs : List String) (env : String → Response)
    (writeOk : String → Bool)
    (hfetch : ∀ p ∈ pairs, ∃ r rows,
      fill_with_latest_data (p ++ extension) env = Except.ok (r :: rows)) :
    download_data pairs ("min") env writeOk =
      Except.ok (pairs.map (fun p =>
        if writeOk p then LogEntry.success (p ++ extension)
        else LogEntry.failure (p ++ extension))) := by
  show runPairs pairs env writeOk = _
  induction pairs with
  | nil => rfl
  | cons p rest ih =>
      obtain ⟨r, rows, hrows⟩ := hfetch p (List.mem_cons_self p rest)
      have hrest := ih (fun q hq => hfetch q (List.mem_cons_of_mem p hq))
      rw [runPairs, clean_dataset, hrows, hrest]
      cases hw : writeOk p with
      | true => simp [hw]
      | false => simp [hw]

theorem write_failure_isolated_witness :
    download_data [("AAA" : String), ("BBB")] ("min")
      (fun _ => Response.jsonArray [[JVal.num 1, JVal.num 0, JVal.num 0, JVal.num 0, JVal.num 2]])
      (fun p => p == ("BBB")) =
      Except.ok ([("AAA" : String), ("BBB")].map (fun p =>
        if (p == ("BBB") : Bool) then LogEntry.success (p ++ extension)
        else LogEntry.failure (p ++ extension))) :=
  write_failure_isolated [("AAA"), ("BBB")]
    (fun _ => Response.jsonArray [[JVal.num 1, JVal.num 0, JVal.num 0, JVal.num 0, JVal.num 2]])
    (fun p => p == ("BBB"))
    (fun _ _ => ⟨⟨JVal.num 1, 2⟩, [], rfl⟩)

theorem entry_of_le {xs : List (Xv f)} {i : ℕ} (h : xs.length ≤ i) : entry xs i = Xv.nan := by
  unfold entry
  rw [List.getD_eq_getElem?_getD, List.getElem?_eq_none h]
  rfl

theorem entry_eq_getElem {xs : List (Xv f)} {i : ℕ} (h : i < xs.length) : entry xs i = xs[i] :=
  List.getD_eq_getElem xs Xv.nan h

theorem entry_map_range (g : ℕ → Xv f) {n i : ℕ} (h : i < n) :
    entry ((List.range n).map g) i = g i := by
  unfold entry
  rw [List.getD_eq_getElem?_getD, List.getElem?_map, List.getElem?_range h]
  rfl

theorem entry_map (g : Xv f → Xv f) {xs : List (Xv f)} {i : ℕ} (h : i < xs.length) :
    entry (xs.map g) i = g (entry xs i) := by
  rw [entry_eq_getElem (by simpa using h), entry_eq_getElem h, List.getElem_map]

theorem entry_zipWith (g : Xv f → Xv f → Xv f) {a b : List (Xv f)} {i : ℕ}
    (ha : i < a.length) (hb : i < b.length) :
    entry (List.zipWith g a b) i = g (entry a i) (entry b i) := by
  rw [entry_eq_getElem (by simp only [List.length_zipWith]; omega),
    entry_eq_getElem ha, entry_eq_getElem hb, List.getElem_zipWith]

theorem length_sdiff (xs : List (Xv f)) : (sdiff xs).length = xs.length := by
  cases xs with
  | nil => rfl
  | cons x xs =>
      simp only [sdiff, List.length_cons, List.length_zipWith]
      omega

theorem entry_sdiff_zero (xs : List (Xv f)) : entry (sdiff xs) 0 = Xv.nan := by
  cases xs <;> rfl

theorem entry_cons_succ (x : Xv f) (l : List (Xv f)) (j : ℕ) :
    entry (x :: l) (j + 1) = entry l j :=
  List.getD_cons_succ

theorem entry_sdiff {xs : List (Xv f)} {i : ℕ} (h1 : 1 ≤ i) (h2 : i < xs.length) :
    entry (sdiff xs) i = xsub (entry xs i) (entry xs (i - 1)) := by
  cases xs with
  | nil => exact absurd h2 (by simp)
  | cons x rest =>
      obtain ⟨j, rfl⟩ : ∃ j, i = j + 1 := ⟨i - 1, by omega⟩
      have hj : j < rest.length := by
        simpa using h2
      show entry (Xv.nan :: List.zipWith xsub rest (x :: rest)) (j + 1) = _
      rw [entry_cons_succ]
      rw [entry_eq_getElem (show j < (List.zipWith xsub rest (x :: rest)).length by
            simp only [List.length_zipWith, List.length_cons]; omega),
        List.getElem_zipWith]
      rw [show j + 1 - 1 = j from rfl,
        entry_eq_getElem (show j + 1 < (x :: rest).length by simpa using h2),
        entry_eq_getElem (show j < (x :: rest).length by simp; omega),
        List.getElem_cons_succ]

theorem length_window {p i : ℕ} (xs : List (Xv f)) (hp : p ≤ i + 1) (hi : i < xs.length) :
    (window p i xs).length = p := by
  unfold window
  simp only [List.length_drop, List.length_take]
  omega

theorem entry_window {p i k : ℕ} (xs : List (Xv f)) (hp : p ≤ i + 1) (hi : i < xs.length)
    (hk : k < p) : entry (window p i xs) k = entry xs (i + 1 - p + k) := by
  have hlw : (window p i xs).length = p := length_window xs hp hi
  rw [entry_eq_getElem (by omega), entry_eq_getElem (show i + 1 - p + k < xs.length by omega)]
  unfold window
  rw [List.getElem_drop, List.getElem_take]

theorem xadd_nan_right (x : Xv f) : xadd x Xv.nan = Xv.nan := by
  cases x <;> rfl

theorem xadd_nan_left (x : Xv f) : xadd Xv.nan x = Xv.nan := by
  cases x <;> rfl

theorem xdiv_nan_left (x : Xv f) : xdiv Xv.nan x = Xv.nan := by
  cases x <;> rfl

theorem xdiv_fin_fin {a b : f} (hb : b ≠ 0) : xdiv (Xv.fin a) (Xv.fin b) = Xv.fin (a / b) := by
  simp [xdiv, hb]

theorem xdiv_zero_zero : xdiv (Xv.fin (0 : f)) (Xv.fin 0) = Xv.nan := by
  simp [xdiv]

theorem xdiv_pos_zero {u : f} (hu : 0 < u) : xdiv (Xv.fin u) (Xv.fin (0 : f)) = Xv.pinf := by
  simp [xdiv, hu, hu.ne']

theorem xsum_nan {l : List (Xv f)} (h : Xv.nan ∈ l) : xsum l = Xv.nan := by
  induction l with
  | nil => exact absurd h (List.not_mem_nil _)
  | cons a l ih =>
      rcases List.mem_cons.mp h with rfl | h'
      · exact xadd_nan_left (xsum l)
      · show xadd a (xsum l) = Xv.nan
        rw [ih h']
        exact xadd_nan_right a

theorem xsum_fin {l : List (Xv f)} (h : ∀ x ∈ l, ∃ q, x = Xv.fin q) :
    ∃ s, xsum l = Xv.fin s := by
  induction l with
  | nil => exact ⟨0, rfl⟩
  | cons a l ih =>
      obtain ⟨q, rfl⟩ := h a (List.mem_cons_self a l)
      obtain ⟨s, hs⟩ := ih (fun x hx => h x (List.mem_cons_of_mem _ hx))
      refine ⟨q + s, ?_⟩
      show xadd (Xv.fin q) (xsum l) = _
      rw [hs]
      rfl

theorem xsum_fin_nonneg {l : List (Xv f)} (h : ∀ x ∈ l, ∃ q, 0 ≤ q ∧ x = Xv.fin q) :
    ∃ s, 0 ≤ s ∧ xsum l = Xv.fin s := by
  induction l with
  | nil => exact ⟨0, le_refl 0, rfl⟩
  | cons a l ih =>
      obtain ⟨q, hq, rfl⟩ := h a (List.mem_cons_self a l)
      obtain ⟨s, hs, hsum⟩ := ih (fun x hx => h x (List.mem_cons_of_mem _ hx))
      refine ⟨q + s, add_nonneg hq hs, ?_⟩
      show xadd (Xv.fin q) (xsum l) = _
      rw [hsum]
      rfl

theorem length_rollingMean (p : ℕ) (xs : List (Xv f)) :
    (rollingMean p xs).length = xs.length := by
  simp [rollingMean]

theorem entry_rollingMean {p : ℕ} {xs : List (Xv f)} {i : ℕ} (h : i < xs.length) :
    entry (rollingMean p xs) i =
      if i + 1 < p then Xv.nan else xdiv (xsum (window p i xs)) (Xv.fin (p : f)) :=
  entry_map_range _ h

theorem length_up_col (cl : List (Xv f)) : (up_col cl).length = cl.length := by
  simp [up_col, clampNegToZero, diff_col, length_sdiff]

theorem length_down_col (cl : List (Xv f)) : (down_col cl).length = cl.length := by
  simp [down_col, xabsS, clampPosToZero, diff_col, length_sdiff]

theorem length_avg_up_col (p : ℕ) (cl : List (Xv f)) :
    (avg_up_col p cl).length = cl.length := by
  rw [avg_up_col, length_rollingMean, length_up_col]

theorem length_avg_down_col (p : ℕ) (cl : List (Xv f)) :
    (avg_down_col p cl).length = cl.length := by
  rw [avg_down_col, length_rollingMean, length_down_col]

theorem length_rs_col (p : ℕ) (cl : List (Xv f)) : (rs_col p cl).length = cl.length := by
  simp [rs_col, List.length_zipWith, length_avg_up_col, length_avg_down_col]

theorem length_rsi_col (p : ℕ) (cl : List (Xv f)) : (rsi_col p cl).length = cl.length := by
  simp [rsi_col, length_rs_col]

theorem entry_rsi (p : ℕ) (cl : List (Xv f)) {i : ℕ} (hi : i < cl.length) :
    entry (rsi_col p cl) i =
      rsiVal (xdiv (entry (avg_up_col p cl) i) (entry (avg_down_col p cl) i)) := by
  rw [rsi_col, entry_map _ (by rw [length_rs_col]; exact hi),
    rs_col, entry_zipWith _ (by rw [length_avg_up_col]; exact hi)
      (by rw [length_avg_down_col]; exact hi)]

theorem rsiVal_nan : rsiVal (Xv.nan : Xv f) = Xv.nan := rfl

theorem rsiVal_pinf : rsiVal (Xv.pinf : Xv f) = Xv.fin 100 := by
  show Xv.fin ((100 : f) + -(0 : f)) = Xv.fin 100
  norm_num

theorem rsiVal_fin {q : f} (hq : 0 ≤ q) :
    rsiVal (Xv.fin q) = Xv.fin (100 - 100 / (1 + q)) := by
  have h1 : (1 : f) + q ≠ 0 := by positivity
  show xsub (Xv.fin 100) (xdiv (Xv.fin 100) (xadd (Xv.fin 1) (Xv.fin q))) = _
  rw [show xadd (Xv.fin (1 : f)) (Xv.fin q) = Xv.fin (1 + q) from rfl, xdiv_fin_fin h1]
  show Xv.fin ((100 : f) + -(100 / (1 + q))) = _
  rw [← sub_eq_add_neg]

theorem rsi_bound_aux {q : f} (hq : 0 ≤ q) :
    0 ≤ 100 - 100 / (1 + q) ∧ 100 - 100 / (1 + q) ≤ 100 := by
  have h1 : (0 : f) < 1 + q := by positivity
  constructor
  · have hle : 100 / (1 + q) ≤ 100 :=
      div_le_self (by norm_num) (by linarith)
    linarith
  · have hpos : 0 < 100 / (1 + q) := by positivity
    linarith

theorem entry_map_fin (closes : List f) {j : ℕ} (h : j < closes.length) :
    entry (closes.map Xv.fin) j = Xv.fin (closes.getD j 0) := by
  rw [entry_eq_getElem (by simpa using h), List.getElem_map, List.getD_eq_getElem _ _ h]

theorem diff_entry_fin (closes : List f) {j : ℕ} (h1 : 1 ≤ j) (h2 : j < closes.length) :
    entry (diff_col (closes.map Xv.fin)) j =
      Xv.fin (closes.getD j 0 + -(closes.getD (j - 1) 0)) := by
  rw [diff_col, entry_sdiff h1 (by simpa using h2), entry_map_fin closes h2,
    entry_map_fin closes (show j - 1 < closes.length by omega)]
  rfl

theorem up_entry {closes : List f} {j : ℕ} (h1 : 1 ≤ j) (h2 : j < closes.length) :
    ∃ u, 0 ≤ u ∧ entry (up_col (closes.map Xv.fin)) j = Xv.fin u := by
  have hlen : (diff_col (closes.map Xv.fin)).length = closes.length := by
    simp [diff_col, length_sdiff]
  rw [up_col, clampNegToZero, entry_map _ (by rw [hlen]; exact h2),
    diff_entry_fin closes h1 h2]
  set d := closes.getD j 0 + -(closes.getD (j - 1) 0) with hdd
  by_cases hneg : d < 0
  · exact ⟨0, le_refl 0, by simp [xlt, hneg]⟩
  · exact ⟨d, not_lt.mp hneg, by simp [xlt, hneg]⟩

theorem down_entry {closes : List f} {j : ℕ} (h1 : 1 ≤ j) (h2 : j < closes.length) :
    ∃ u, 0 ≤ u ∧ entry (down_col (closes.map Xv.fin)) j = Xv.fin u := by
  have hlen : (diff_col (closes.map Xv.fin)).length = closes.length := by
    simp [diff_col, length_sdiff]
  have hlen2 : ((clampPosToZero (diff_col (closes.map Xv.fin))).length) = closes.length := by
    simp [clampPosToZero, hlen]
  rw [down_col, xabsS, entry_map _ (by rw [hlen2]; exact h2),
    clampPosToZero, entry_map _ (by rw [hlen]; exact h2), diff_entry_fin closes h1 h2]
  set d := closes.getD j 0 + -(closes.getD (j - 1) 0) with hdd
  by_cases hpos : 0 < d
  · exact ⟨0, le_refl 0, by simp [xlt, hpos, xabs, abs_zero]⟩
  · exact ⟨|d|, abs_nonneg d, by simp [xlt, hpos, xabs]⟩

theorem up_entry_zero (closes : List f) (h : 0 < closes.length) :
    entry (up_col (closes.map Xv.fin)) 0 = Xv.nan := by
  have hlen : (diff_col (closes.map Xv.fin)).length = closes.length := by
    simp [diff_col, length_sdiff]
  rw [up_col, clampNegToZero, entry_map _ (by rw [hlen]; exact h),
    diff_col, entry_sdiff_zero]
  rfl

theorem avg_up_entry {closes : List f} {p i : ℕ} (hp : 0 < p) (hpi : p ≤ i)
    (hi : i < closes.length) :
    ∃ u, 0 ≤ u ∧ entry (avg_up_col p (closes.map Xv.fin)) i = Xv.fin u := by
  have hlen : (up_col (closes.map Xv.fin)).length = closes.length := by
    rw [length_up_col]
    simp
  have hre := @entry_rollingMean f _ p (up_col (closes.map Xv.fin)) i
    (by rw [hlen]; exact hi)
  rw [if_neg (by omega)] at hre
  have hw : ∀ x ∈ window p i (up_col (closes.map Xv.fin)), ∃ q, 0 ≤ q ∧ x = Xv.fin q := by
    intro x hx
    obtain ⟨k, hk, hxk⟩ := List.mem_iff_getElem.mp hx
    have hkp : k < p := by
      rwa [length_window _ (by omega) (by rw [hlen]; exact hi)] at hk
    have hwk : entry (window p i (up_col (closes.map Xv.fin))) k =
        entry (up_col (closes.map Xv.fin)) (i + 1 - p + k) :=
      entry_window _ (by omega) (by rw [hlen]; exact hi) hkp
    obtain ⟨u, hu, hju⟩ := @up_entry f _ closes (i + 1 - p + k)
      (show 1 ≤ i + 1 - p + k by omega) (show i + 1 - p + k < closes.length by omega)
    refine ⟨u, hu, ?_⟩
    rw [← hxk, ← entry_eq_getElem hk, hwk, hju]
  obtain ⟨s, hs, hsum⟩ := xsum_fin_nonneg hw
  have hpf : ((p : f)) ≠ 0 := Nat.cast_ne_zero.mpr (by omega)
  refine ⟨s / p, div_nonneg hs (by positivity), ?_⟩
  rw [avg_up_col, hre, hsum, xdiv_fin_fin hpf]

theorem avg_down_entry {closes : List f} {p i : ℕ} (hp : 0 < p) (hpi : p ≤ i)
    (hi : i < closes.length) :
    ∃ u, 0 ≤ u ∧ entry (avg_down_col p (closes.map Xv.fin)) i = Xv.fin u := by
  have hlen : (down_col (closes.map Xv.fin)).length = closes.length := by
    rw [length_down_col]
    simp
  have hre := @entry_rollingMean f _ p (down_col (closes.map Xv.fin)) i
    (by rw [hlen]; exact hi)
  rw [if_neg (by omega)] at hre
  have hw : ∀ x ∈ window p i (down_col (closes.map Xv.fin)), ∃ q, 0 ≤ q ∧ x = Xv.fin q := by
    intro x hx
    obtain ⟨k, hk, hxk⟩ := List.mem_iff_getElem.mp hx
    have hkp : k < p := by
      rwa [length_window _ (by omega) (by rw [hlen]; exact hi)] at hk
    have hwk : entry (window p i (down_col (closes.map Xv.fin))) k =
        entry (down_col (closes.map Xv.fin)) (i + 1 - p + k) :=
      entry_window _ (by omega) (by rw [hlen]; exact hi) hkp
    obtain ⟨u, hu, hju⟩ := @down_entry f _ closes (i + 1 - p + k)
      (show 1 ≤ i + 1 - p + k by omega) (show i + 1 - p + k < closes.length by omega)
    refine ⟨u, hu, ?_⟩
    rw [← hxk, ← entry_eq_getElem hk, hwk, hju]
  obtain ⟨s, hs, hsum⟩ := xsum_fin_nonneg hw
  have hpf : ((p : f)) ≠ 0 := Nat.cast_ne_zero.mpr (by omega)
  refine ⟨s / p, div_nonneg hs (by positivity), ?_⟩
  rw [avg_down_col, hre, hsum, xdiv_fin_fin hpf]

theorem rsi_entry_nan_of_lt (p : ℕ) (cl : List (Xv f)) {i : ℕ} (hp : 0 < p) (hip : i < p) :
    entry (rsi_col p cl) i = Xv.nan := by
  by_cases hi : i < cl.length
  case neg =>
    exact entry_of_le (by rw [length_rsi_col]; omega)
  case pos =>
    rw [entry_rsi p cl hi]
    suffices h : entry (avg_up_col p cl) i = Xv.nan by
      rw [h, xdiv_nan_left, rsiVal_nan]
    have hiup : i < (up_col cl).length := by rwa [length_up_col]
    rw [avg_up_col, entry_rollingMean hiup]
    by_cases h1 : i + 1 < p
    · rw [if_pos h1]
    · rw [if_neg h1]
      have h0 : entry (up_col cl) 0 = Xv.nan := by
        have hlen : (diff_col cl).length = cl.length := by simp [diff_col, length_sdiff]
        rw [up_col, clampNegToZero, entry_map _ (by rw [hlen]; omega),
          diff_col, entry_sdiff_zero]
        rfl
      have hlw : (window p i (up_col cl)).length = p :=
        length_window _ (by omega) hiup
      have he : entry (window p i (up_col cl)) 0 = entry (up_col cl) (i + 1 - p + 0) :=
        entry_window _ (by omega) hiup (by omega)
      rw [show i + 1 - p + 0 = 0 by omega, h0, entry_eq_getElem (by omega)] at he
      have hmem : Xv.nan ∈ window p i (up_col cl) := he ▸ List.getElem_mem _
      rw [xsum_nan hmem, xdiv_nan_left]

theorem xsum_const {l : List (Xv f)} {c : f} (h : ∀ x ∈ l, x = Xv.fin c) :
    xsum l = Xv.fin ((l.length : f) * c) := by
  induction l with
  | nil =>
      show Xv.fin 0 = Xv.fin (((0 : ℕ) : f) * c)
      norm_num
  | cons a l ih =>
      have ha := h a (List.mem_cons_self a l)
      subst ha
      rw [show xsum (Xv.fin c :: l) = xadd (Xv.fin c) (xsum l) from rfl,
        ih (fun x hx => h x (List.mem_cons_of_mem _ hx))]
      show Xv.fin (c + (l.length : f) * c) = Xv.fin (((l.length + 1 : ℕ) : f) * c)
      congr 1
      push_cast
      ring

theorem window_all {p i : ℕ} {xs : List (Xv f)} {P : Xv f → Prop} (hp : p ≤ i + 1)
    (hi : i < xs.length) (h : ∀ j, i + 1 - p ≤ j → j ≤ i → P (entry xs j)) :
    ∀ x ∈ window p i xs, P x := by
  intro x hx
  obtain ⟨k, hk, hxk⟩ := List.mem_iff_getElem.mp hx
  have hkp : k < p := by rwa [length_window _ hp hi] at hk
  have hwk := @entry_window f _ p i k xs hp hi hkp
  rw [← hxk, ← entry_eq_getElem hk, hwk]
  exact h _ (by omega) (by omega)

theorem rollingMean_const {p i : ℕ} {xs : List (Xv f)} {c : f} (hp : 0 < p)
    (hpi : p ≤ i + 1) (hi : i < xs.length)
    (h : ∀ j, i + 1 - p ≤ j → j ≤ i → entry xs j = Xv.fin c) :
    entry (rollingMean p xs) i = Xv.fin c := by
  rw [entry_rollingMean hi, if_neg (by omega)]
  have hpf : ((p : f)) ≠ 0 := Nat.cast_ne_zero.mpr (by omega)
  rw [xsum_const (window_all hpi hi h), length_window _ hpi hi, xdiv_fin_fin hpf]
  congr 1
  exact mul_div_cancel_left₀ c hpf

theorem up_entry_val {closes : List f} {j : ℕ} (h1 : 1 ≤ j) (h2 : j < closes.length) :
    entry (up_col (closes.map Xv.fin)) j =
      Xv.fin (max (closes.getD j 0 + -(closes.getD (j - 1) 0)) 0) := by
  have hlen : (diff_col (closes.map Xv.fin)).length = closes.length := by
    simp [diff_col, length_sdiff]
  rw [up_col, clampNegToZero, entry_map _ (by rw [hlen]; exact h2),
    diff_entry_fin closes h1 h2]
  set d := closes.getD j 0 + -(closes.getD (j - 1) 0) with hdd
  by_cases hneg : d < 0
  · rw [max_eq_right (le_of_lt hneg)]
    simp [xlt, hneg]
  · rw [max_eq_left (not_lt.mp hneg)]
    simp [xlt, hneg]

theorem down_entry_val {closes : List f} {j : ℕ} (h1 : 1 ≤ j) (h2 : j < closes.length) :
    entry (down_col (closes.map Xv.fin)) j =
      Xv.fin (max (-(closes.getD j 0 + -(closes.getD (j - 1) 0))) 0) := by
  have hlen : (diff_col (closes.map Xv.fin)).length = closes.length := by
    simp [diff_col, length_sdiff]
  have hlen2 : ((clampPosToZero (diff_col (closes.map Xv.fin))).length) = closes.length := by
    simp [clampPosToZero, hlen]
  rw [down_col, xabsS, entry_map _ (by rw [hlen2]; exact h2),
    clampPosToZero, entry_map _ (by rw [hlen]; exact h2), diff_entry_fin closes h1 h2]
  set d := closes.getD j 0 + -(closes.getD (j - 1) 0) with hdd
  by_cases hpos : 0 < d
  · rw [max_eq_right (by linarith)]
    simp [xlt, hpos, xabs, abs_zero]
  · rw [max_eq_left (by linarith [not_lt.mp hpos])]
    have habs : |d| = -d := abs_of_nonpos (not_lt.mp hpos)
    simp [xlt, hpos, xabs, habs]

theorem avg_cols_const_diff {closes : List f} {p i : ℕ} {c : f} (hp : 0 < p)
    (hpi : p ≤ i) (hi : i < closes.length)
    (hstep : ∀ j, 1 ≤ j → j < closes.length →
      closes.getD j 0 + -(closes.getD (j - 1) 0) = c) :
    entry (avg_up_col p (closes.map Xv.fin)) i = Xv.fin (max c 0) ∧
    entry (avg_down_col p (closes.map Xv.fin)) i = Xv.fin (max (-c) 0) := by
  have hlu : (up_col (closes.map Xv.fin)).length = closes.length := by
    rw [length_up_col, List.length_map]
  have hld : (down_col (closes.map Xv.fin)).length = closes.length := by
    rw [length_down_col, List.length_map]
  constructor
  · rw [avg_up_col]
    refine rollingMean_const hp (by omega) (by rw [hlu]; exact hi) ?_
    intro j hj1 hj2
    have hjge : 1 ≤ j := by omega
    have hjlt : j < closes.length := by omega
    rw [up_entry_val hjge hjlt, hstep j hjge hjlt]
  · rw [avg_down_col]
    refine rollingMean_const hp (by omega) (by rw [hld]; exact hi) ?_
    intro j hj1 hj2
    have hjge : 1 ≤ j := by omega
    have hjlt : j < closes.length := by omega
    rw [down_entry_val hjge hjlt, hstep j hjge hjlt]

theorem rsi_ramp_run {closes : List f} {p i : ℕ} (hp : 0 < p) (hpi : p ≤ i)
    (hi : i < closes.length)
    (hstep : ∀ j, 1 ≤ j → j < closes.length →
      closes.getD j 0 + -(closes.getD (j - 1) 0) = 1) :
    entry (avg_up_col p (closes.map Xv.fin)) i = Xv.fin 1 ∧
    entry (avg_down_col p (closes.map Xv.fin)) i = Xv.fin 0 ∧
    entry (rsi_col p (closes.map Xv.fin)) i = Xv.fin 100 := by
  obtain ⟨hu, hd⟩ := avg_cols_const_diff hp hpi hi hstep
  rw [max_eq_left (by norm_num)] at hu
  rw [max_eq_right (by norm_num)] at hd
  refine ⟨hu, hd, ?_⟩
  rw [entry_rsi p _ (by simpa using hi), hu, hd,
    xdiv_pos_zero (by norm_num : (0 : f) < 1), rsiVal_pinf]

theorem rsi_const_run {closes : List f} {p i : ℕ} (hp : 0 < p) (hpi : p ≤ i)
    (hi : i < closes.length)
    (hstep : ∀ j, 1 ≤ j → j < closes.length →
      closes.getD j 0 + -(closes.getD (j - 1) 0) = 0) :
    entry (avg_up_col p (closes.map Xv.fin)) i = Xv.fin 0 ∧
    entry (avg_down_col p (closes.map Xv.fin)) i = Xv.fin 0 ∧
    entry (rsi_col p (closes.map Xv.fin)) i = Xv.nan := by
  obtain ⟨hu, hd⟩ := avg_cols_const_diff hp hpi hi hstep
  rw [max_eq_left (le_refl 0)] at hu
  rw [neg_zero, max_eq_left (le_refl 0)] at hd
  refine ⟨hu, hd, ?_⟩
  rw [entry_rsi p _ (by simpa using hi), hu, hd, xdiv_zero_zero, rsiVal_nan]

theorem const15_step : ∀ j, 1 ≤ j → j < (List.replicate 15 (1 : ℚ)).length →
    (List.replicate 15 (1 : ℚ)).getD j 0 + -((List.replicate 15 (1 : ℚ)).getD (j - 1) 0) = 0 := by
  intro j hj1 hj2
  simp only [List.length_replicate] at hj2
  rw [List.getD_eq_getElem _ _ (by simpa using hj2), List.getElem_replicate,
    List.getD_eq_getElem _ _ (by simp; omega), List.getElem_replicate]
  norm_num

theorem const15_facts :
    entry (avg_down_col 14 ((List.replicate 15 (1 : ℚ)).map Xv.fin)) 14 = Xv.fin 0 ∧
    entry (rsi_col 14 ((List.replicate 15 (1 : ℚ)).map Xv.fin)) 14 = Xv.nan := by
  obtain ⟨hu, hd, hnan⟩ := rsi_const_run (show 0 < 14 by norm_num) (show 14 ≤ 14 by norm_num)
    (by simp) const15_step
  exact ⟨hd, hnan⟩

theorem ramp15_step : ∀ j, 1 ≤ j → j < ((List.range 15).map (fun n : ℕ => ((n : ℚ)))).length →
    ((List.range 15).map (fun n : ℕ => ((n : ℚ)))).getD j 0 +
      -(((List.range 15).map (fun n : ℕ => ((n : ℚ)))).getD (j - 1) 0) = 1 := by
  intro j hj1 hj2
  simp only [List.length_map, List.length_range] at hj2
  rw [List.getD_eq_getElem _ _ (by simpa using hj2), List.getElem_map, List.getElem_range,
    List.getD_eq_getElem _ _ (by simp; omega), List.getElem_map, List.getElem_range,
    Nat.cast_sub hj1]
  push_cast
  ring

theorem ramp15_facts :
    entry (avg_up_col 14 (((List.range 15).map (fun n : ℕ => ((n : ℚ)))).map Xv.fin)) 14 =
      Xv.fin 1 ∧
    entry (avg_down_col 14 (((List.range 15).map (fun n : ℕ => ((n : ℚ)))).map Xv.fin)) 14 =
      Xv.fin 0 ∧
    entry (rsi_col 14 (((List.range 15).map (fun n : ℕ => ((n : ℚ)))).map Xv.fin)) 14 =
      Xv.fin 100 :=
  rsi_ramp_run (by norm_num) (by norm_num) (by simp) ramp15_step

/-- C4: for every finite close-price sequence and every row at which the
computed RSI(14) is a (finite) defined value, that value lies in [0, 100]. -/
theorem rsi_bounds (closes : List ℚ) (i : ℕ) (q : ℚ)
    (h : entry (rsi_col 14 (closes.map Xv.fin)) i = Xv.fin q) : 0 ≤ q ∧ q ≤ 100 := by
  by_cases hi : i < closes.length
  case neg =>
    rw [entry_of_le (by rw [length_rsi_col, List.length_map]; omega)] at h
    exact absurd h (fun hh => Xv.noConfusion hh)
  case pos =>
    by_cases hip : i < 14
    · rw [rsi_entry_nan_of_lt 14 _ (by norm_num) hip] at h
      exact absurd h (fun hh => Xv.noConfusion hh)
    · push_neg at hip
      obtain ⟨u, hu, hau⟩ := avg_up_entry (show (0 : ℕ) < 14 by norm_num) hip hi
      obtain ⟨d, hd0, had⟩ := avg_down_entry (show (0 : ℕ) < 14 by norm_num) hip hi
      rw [entry_rsi 14 _ (by simpa using hi), hau, had] at h
      by_cases hdz : d = 0
      · subst hdz
        by_cases huz : u = 0
        · subst huz
          rw [xdiv_zero_zero, rsiVal_nan] at h
          exact absurd h (fun hh => Xv.noConfusion hh)
        · have hupos : 0 < u := lt_of_le_of_ne hu (Ne.symm huz)
          rw [xdiv_pos_zero hupos, rsiVal_pinf] at h
          injection h with hq
          subst hq
          norm_num
      · have hqd : (0 : ℚ) ≤ u / d := div_nonneg hu hd0
        rw [xdiv_fin_fin hdz, rsiVal_fin hqd] at h
        injection h with hq
        subst hq
        exact rsi_bound_aux hqd

theorem rsi_bounds_witness :
    entry (rsi_col 14 (((List.range 15).map (fun n : ℕ => ((n : ℚ)))).map Xv.fin)) 14 =
      Xv.fin 100 ∧ (0 ≤ (100 : ℚ) ∧ (100 : ℚ) ≤ 100) :=
  ⟨ramp15_facts.2.2,
    rsi_bounds ((List.range 15).map (fun n : ℕ => ((n : ℚ)))) 14 100 ramp15_facts.2.2⟩

/-- C2 counterexample: on the constant sequence of fifteen 1s, avg_down at
row 14 is exactly 0, yet the RSI there is NaN (pandas computes
RS = 0/0 = NaN), not 100 as the claim states for every sequence with
avg_down = 0. -/
theorem rsi_constant_counterexample :
    entry (avg_down_col 14 ((List.replicate 15 (1 : ℚ)).map Xv.fin)) 14 = Xv.fin 0 ∧
    entry (rsi_col 14 ((List.replicate 15 (1 : ℚ)).map Xv.fin)) 14 = Xv.nan ∧
    (Xv.nan : Xv ℚ) ≠ Xv.fin 100 :=
  ⟨const15_facts.1, const15_facts.2, fun h => Xv.noConfusion h⟩

/-- C2 (amended): whenever avg_down[i] = 0 and avg_up[i] is a positive
value, RS = avg_up/0 = +inf and the RSI at i is exactly 100, with no
runtime error; when avg_up[i] = 0 as well, RS = 0/0 = NaN and the RSI is
NaN rather than 100. In particular on close = [1, 2, ..., 35] the RSI of
the last sample is exactly 100. -/
theorem rsi_avg_down_zero :
    (∀ (closes : List ℚ) (i : ℕ) (u : ℚ),
        entry (avg_down_col 14 (closes.map Xv.fin)) i = Xv.fin 0 →
        entry (avg_up_col 14 (closes.map Xv.fin)) i = Xv.fin u →
        0 < u →
        entry (rsi_col 14 (closes.map Xv.fin)) i = Xv.fin 100) ∧
    entry (rsi_col 14 (((List.range 35).map (fun n : ℕ => ((n : ℚ) + 1))).map Xv.fin)) 34 =
      Xv.fin 100 := by
  constructor
  · intro closes i u hd hu hupos
    have hi : i < closes.length := by
      by_contra hni
      push_neg at hni
      rw [entry_of_le (by rw [length_avg_down_col, List.length_map]; exact hni)] at hd
      exact Xv.noConfusion hd
    rw [entry_rsi 14 _ (by simpa using hi), hu, hd, xdiv_pos_zero hupos, rsiVal_pinf]
  · have hstep : ∀ j, 1 ≤ j → j < ((List.range 35).map (fun n : ℕ => ((n : ℚ) + 1))).length →
        ((List.range 35).map (fun n : ℕ => ((n : ℚ) + 1))).getD j 0 +
          -(((List.range 35).map (fun n : ℕ => ((n : ℚ) + 1))).getD (j - 1) 0) = 1 := by
      intro j hj1 hj2
      simp only [List.length_map, List.length_range] at hj2
      rw [List.getD_eq_getElem _ _ (by simpa using hj2), List.getElem_map, List.getElem_range,
        List.getD_eq_getElem _ _ (by simp; omega), List.getElem_map, List.getElem_range,
        Nat.cast_sub hj1]
      push_cast
      ring
    exact (rsi_ramp_run (by norm_num) (by norm_num) (by simp) hstep).2.2

theorem rsi_avg_down_zero_witness :
    entry (avg_down_col 14 (((List.range 15).map (fun n : ℕ => ((n : ℚ)))).map Xv.fin)) 14 =
      Xv.fin 0 ∧
    entry (avg_up_col 14 (((List.range 15).map (fun n : ℕ => ((n : ℚ)))).map Xv.fin)) 14 =
      Xv.fin 1 ∧
    ((0 : ℚ) < 1) ∧
    entry (rsi_col 14 (((List.range 15).map (fun n : ℕ => ((n : ℚ)))).map Xv.fin)) 14 =
      Xv.fin 100 :=
  ⟨ramp15_facts.2.1, ramp15_facts.1, by norm_num,
    rsi_avg_down_zero.1 ((List.range 15).map (fun n : ℕ => ((n : ℚ)))) 14 1
      ramp15_facts.2.1 ramp15_facts.1 (by norm_num)⟩

/-- C3 counterexample: on the constant sequence of fifteen 1s, row 14
satisfies i >= period = 14 and lies inside the sequence, yet the RSI
there is NaN (undefined), because every diff in the window is 0 and
RS = 0/0 = NaN; the claim states RSI is defined at every i >= P. -/
theorem rsi_definedness_counterexample :
    (14 : ℕ) ≤ 14 ∧ 14 < (List.replicate 15 (1 : ℚ)).length ∧
    entry (rsi_col 14 ((List.replicate 15 (1 : ℚ)).map Xv.fin)) 14 = Xv.nan :=
  ⟨by norm_num, by simp, const15_facts.2⟩

/-- C3 (amended): RSI(14)[i] is undefined (NaN) for every i < 14; for
14 <= i inside the sequence, RSI[i] is a defined (finite) value exactly
when not both rolling averages are zero — when every diff in the trailing
window is zero, avg_up = avg_down = 0 makes RS = 0/0 = NaN and RSI[i] is
undefined as well. -/
theorem rsi_definedness (closes : List ℚ) (i : ℕ) (hi : i < closes.length) :
    (i < 14 → entry (rsi_col 14 (closes.map Xv.fin)) i = Xv.nan) ∧
    (14 ≤ i →
      ((∃ q, entry (rsi_col 14 (closes.map Xv.fin)) i = Xv.fin q) ↔
        ¬(entry (avg_up_col 14 (closes.map Xv.fin)) i = Xv.fin 0 ∧
          entry (avg_down_col 14 (closes.map Xv.fin)) i = Xv.fin 0))) := by
  constructor
  · intro hip
    exact rsi_entry_nan_of_lt 14 _ (by norm_num) hip
  · intro hip
    obtain ⟨u, hu, hau⟩ := avg_up_entry (show (0 : ℕ) < 14 by norm_num) hip hi
    obtain ⟨d, hd0, had⟩ := avg_down_entry (show (0 : ℕ) < 14 by norm_num) hip hi
    rw [entry_rsi 14 _ (by simpa using hi), hau, had]
    constructor
    · rintro ⟨q, hq⟩ ⟨hz1, hz2⟩
      injection hz1 with hu0
      injection hz2 with hd0'
      subst hu0
      subst hd0'
      rw [xdiv_zero_zero, rsiVal_nan] at hq
      exact Xv.noConfusion hq
    · intro hnb
      by_cases hdz : d = 0
      · have huz : u ≠ 0 := by
          intro h0
          exact hnb ⟨by rw [h0], by rw [hdz]⟩
        have hupos : 0 < u := lt_of_le_of_ne hu (Ne.symm huz)
        subst hdz
        rw [xdiv_pos_zero hupos, rsiVal_pinf]
        exact ⟨100, rfl⟩
      · rw [xdiv_fin_fin hdz, rsiVal_fin (div_nonneg hu hd0)]
        exact ⟨_, rfl⟩

theorem rsi_definedness_witness :
    (14 < (List.replicate 15 (1 : ℚ)).length) ∧
    ((14 < 14 → entry (rsi_col 14 ((List.replicate 15 (1 : ℚ)).map Xv.fin)) 14 = Xv.nan) ∧
     (14 ≤ 14 →
       ((∃ q, entry (rsi_col 14 ((List.replicate 15 (1 : ℚ)).map Xv.fin)) 14 = Xv.fin q) ↔
         ¬(entry (avg_up_col 14 ((List.replicate 15 (1 : ℚ)).map Xv.fin)) 14 = Xv.fin 0 ∧
           entry (avg_down_col 14 ((List.replicate 15 (1 : ℚ)).map Xv.fin)) 14 =
             Xv.fin 0)))) :=
  ⟨by simp, rsi_definedness (List.replicate 15 (1 : ℚ)) 14 (by simp)⟩

theorem length_rollingStd (p : ℕ) (xs : List (Xv ℝ)) :
    (rollingStd p xs).length = xs.length := by
  simp [rollingStd]

theorem entry_rollingStd {p : ℕ} {xs : List (Xv ℝ)} {i : ℕ} (h : i < xs.length) :
    entry (rollingStd p xs) i =
      if i + 1 < p then Xv.nan else windowStd p (window p i xs) :=
  entry_map_range _ h

theorem windowStd_fin {p : ℕ} {w : List (Xv ℝ)} (hw : ∀ x ∈ w, ∃ q, x = Xv.fin q)
    (hp : ((p : ℝ)) ≠ 0) (hp1 : (0 : ℝ) < (p : ℝ) - 1) :
    ∃ s, 0 ≤ s ∧ windowStd p w = Xv.fin s := by
  obtain ⟨m0, hm0⟩ := xsum_fin hw
  have hterms : ∀ x ∈ w.map (fun x =>
      xmul (xsub x (xdiv (xsum w) (Xv.fin (p : ℝ)))) (xsub x (xdiv (xsum w) (Xv.fin (p : ℝ))))),
      ∃ q, 0 ≤ q ∧ x = Xv.fin q := by
    intro x hx
    obtain ⟨y, hy, rfl⟩ := List.mem_map.mp hx
    obtain ⟨qy, rfl⟩ := hw y hy
    rw [hm0, xdiv_fin_fin hp]
    exact ⟨(qy + -(m0 / p)) * (qy + -(m0 / p)), mul_self_nonneg _, rfl⟩
  obtain ⟨v, hv, hvs⟩ := xsum_fin_nonneg hterms
  rw [windowStd, hvs, xdiv_fin_fin (ne_of_gt hp1)]
  have hvp : 0 ≤ v / ((p : ℝ) - 1) := div_nonneg hv (le_of_lt hp1)
  refine ⟨Real.sqrt (v / ((p : ℝ) - 1)), Real.sqrt_nonneg _, ?_⟩
  rw [xsqrt, if_neg (not_lt.mpr hvp)]

/-- C5: at every row where the Bollinger computation is defined, the
rolling mean and sample standard deviation are finite values m and s with
s nonnegative, upperband = m + 2s, lowerband = m - 2s, and therefore
lowerband <= middle <= upperband. -/
theorem bollinger_band_identities (closes : List ℝ) (i : ℕ) (h20 : 20 ≤ i)
    (hlen : i < closes.length) :
    ∃ m s, entry (rollingMean 21 (closes.map Xv.fin)) i = Xv.fin m ∧
      entry (rollingStd 21 (closes.map Xv.fin)) i = Xv.fin s ∧ 0 ≤ s ∧
      entry (upper_col 21 (closes.map Xv.fin)) i = Xv.fin (m + 2 * s) ∧
      entry (lower_col 21 (closes.map Xv.fin)) i = Xv.fin (m - 2 * s) ∧
      m - 2 * s ≤ m ∧ m ≤ m + 2 * s := by
  have hicl : i < (closes.map Xv.fin).length := by simpa using hlen
  have hwfin : ∀ x ∈ window 21 i (closes.map Xv.fin), ∃ q, x = Xv.fin q := by
    refine window_all (by omega) hicl ?_
    intro j hj1 hj2
    exact ⟨closes.getD j 0, entry_map_fin closes (by omega)⟩
  have h21 : (((21 : ℕ) : ℝ)) ≠ 0 := by norm_num
  obtain ⟨m0, hm0⟩ := xsum_fin hwfin
  have hmean : entry (rollingMean 21 (closes.map Xv.fin)) i = Xv.fin (m0 / ((21 : ℕ) : ℝ)) := by
    rw [entry_rollingMean hicl, if_neg (by omega), hm0, xdiv_fin_fin h21]
  obtain ⟨s, hs, hsd0⟩ := windowStd_fin hwfin h21 (by norm_num)
  have hsd : entry (rollingStd 21 (closes.map Xv.fin)) i = Xv.fin s := by
    rw [entry_rollingStd hicl, if_neg (by omega), hsd0]
  have hup : entry (upper_col 21 (closes.map Xv.fin)) i =
      Xv.fin (m0 / ((21 : ℕ) : ℝ) + 2 * s) := by
    rw [upper_col,
      entry_zipWith _ (by rw [length_rollingMean]; exact hicl)
        (by rw [List.length_map, length_rollingStd]; exact hicl),
      entry_map _ (by rw [length_rollingStd]; exact hicl), hmean, hsd]
    rfl
  have hlow : entry (lower_col 21 (closes.map Xv.fin)) i =
      Xv.fin (m0 / ((21 : ℕ) : ℝ) - 2 * s) := by
    rw [lower_col,
      entry_zipWith _ (by rw [length_rollingMean]; exact hicl)
        (by rw [List.length_map, length_rollingStd]; exact hicl),
      entry_map _ (by rw [length_rollingStd]; exact hicl), hmean, hsd,
      show (m0 / ((21 : ℕ) : ℝ) - 2 * s) = m0 / ((21 : ℕ) : ℝ) + -(2 * s) from
        sub_eq_add_neg _ _]
    rfl
  exact ⟨m0 / ((21 : ℕ) : ℝ), s, hmean, hsd, hs, hup, hlow, by linarith, by linarith⟩

theorem bollinger_band_identities_witness :
    (20 ≤ 20) ∧ (20 < (List.replicate 21 (5 : ℝ)).length) ∧
    (∃ m s, entry (rollingMean 21 ((List.replicate 21 (5 : ℝ)).map Xv.fin)) 20 = Xv.fin m ∧
      entry (rollingStd 21 ((List.replicate 21 (5 : ℝ)).map Xv.fin)) 20 = Xv.fin s ∧ 0 ≤ s ∧
      entry (upper_col 21 ((List.replicate 21 (5 : ℝ)).map Xv.fin)) 20 = Xv.fin (m + 2 * s) ∧
      entry (lower_col 21 ((List.replicate 21 (5 : ℝ)).map Xv.fin)) 20 = Xv.fin (m - 2 * s) ∧
      m - 2 * s ≤ m ∧ m ≤ m + 2 * s) :=
  ⟨by norm_num, by simp,
    bollinger_band_identities (List.replicate 21 (5 : ℝ)) 20 (by norm_num) (by simp)⟩

set_option maxHeartbeats 2000000 in
/-- C6: feature_engineering, run on a fetched frame of an arbitrary unix
column and close column, yields a frame whose columns are exactly unix,
RSI, lowerband, upperband, close in that order — every intermediate
column (Diff, Up, Down, avg_up, avg_down, RS, 20MA, SD) is dropped by the
final projection — and the unix and close columns come through unchanged
from the fetched candles. -/
theorem feature_engineering_columns (us cs : List (Xv ℝ)) :
    ((feature_engineering (fetchedFrame us cs)).map Prod.fst =
      [("unix"), ("RSI"), ("lowerband"), ("upperband"), ("close")]) ∧
    getColD ("unix") (feature_engineering (fetchedFrame us cs)) = us ∧
    getColD ("close") (feature_engineering (fetchedFrame us cs)) = cs :=
  ⟨rfl, rfl, rfl⟩

set_option maxHeartbeats 2000000 in
theorem frame_rsi_col (us cs : List (Xv ℝ)) :
    getColD ("RSI") (feature_engineering (fetchedFrame us cs)) = rsi_col 14 cs :=
  rfl

set_option maxHeartbeats 2000000 in
theorem frame_band_cols (us cs : List (Xv ℝ)) :
    getColD ("upperband") (feature_engineering (fetchedFrame us cs)) = upper_col 21 cs ∧
    getColD ("lowerband") (feature_engineering (fetchedFrame us cs)) = lower_col 21 cs :=
  ⟨rfl, rfl⟩

theorem upper_entry_nan {cl : List (Xv ℝ)} {p i : ℕ} (hip : i + 1 < p) :
    entry (upper_col p cl) i = Xv.nan := by
  by_cases hi : i < cl.length
  · rw [upper_col,
      entry_zipWith _ (by rw [length_rollingMean]; exact hi)
        (by rw [List.length_map, length_rollingStd]; exact hi),
      entry_rollingMean hi, if_pos hip]
    exact xadd_nan_left _
  · refine entry_of_le ?_
    simp only [upper_col, List.length_zipWith, length_rollingMean, List.length_map,
      length_rollingStd]
    omega

theorem lower_entry_nan {cl : List (Xv ℝ)} {p i : ℕ} (hip : i + 1 < p) :
    entry (lower_col p cl) i = Xv.nan := by
  by_cases hi : i < cl.length
  · rw [lower_col,
      entry_zipWith _ (by rw [length_rollingMean]; exact hi)
        (by rw [List.length_map, length_rollingStd]; exact hi),
      entry_rollingMean hi, if_pos hip]
    exact xadd_nan_left _
  · refine entry_of_le ?_
    simp only [lower_col, List.length_zipWith, length_rollingMean, List.length_map,
      length_rollingStd]
    omega

/-- C9: every undefined rolling entry is represented as a missing value in
the output frame — RSI is NaN on the first 14 rows, both bands are NaN on
the first 20 rows — and to_csv serializes a missing value as the empty
field (the default na_rep), which is never the string 0. -/
theorem missing_values_serialized_empty (us cs : List (Xv ℝ)) (fmt : ℝ → String) (i : ℕ) :
    (i < 14 → entry (getColD ("RSI") (feature_engineering (fetchedFrame us cs))) i = Xv.nan) ∧
    (i < 20 →
      entry (getColD ("upperband") (feature_engineering (fetchedFrame us cs))) i = Xv.nan ∧
      entry (getColD ("lowerband") (feature_engineering (fetchedFrame us cs))) i = Xv.nan) ∧
    (∀ x : Xv ℝ, x = Xv.nan → csvField fmt x = ("") ∧ csvField fmt x ≠ ("0")) := by
  obtain ⟨hup, hlo⟩ := frame_band_cols us cs
  refine ⟨?_, ?_, ?_⟩
  · intro hip
    rw [frame_rsi_col us cs]
    exact rsi_entry_nan_of_lt 14 cs (by norm_num) hip
  · intro hip
    exact ⟨by rw [hup]; exact upper_entry_nan (by omega),
      by rw [hlo]; exact lower_entry_nan (by omega)⟩
  · rintro x rfl
    refine ⟨rfl, ?_⟩
    intro h
    rw [show csvField fmt Xv.nan = ("") from rfl] at h
    exact absurd h (by decide)

theorem missing_values_serialized_empty_witness :
    (entry (getColD ("RSI")
        (feature_engineering (fetchedFrame [Xv.fin (1 : ℝ)] [Xv.fin (2 : ℝ)]))) 0 = Xv.nan) ∧
    (entry (getColD ("upperband")
        (feature_engineering (fetchedFrame [Xv.fin (1 : ℝ)] [Xv.fin (2 : ℝ)]))) 0 = Xv.nan ∧
      entry (getColD ("lowerband")
        (feature_engineering (fetchedFrame [Xv.fin (1 : ℝ)] [Xv.fin (2 : ℝ)]))) 0 = Xv.nan) ∧
    (csvField (fun _ => ("x")) Xv.nan = ("") ∧ csvField (fun _ => ("x")) Xv.nan ≠ ("0")) :=
  have h := missing_values_serialized_empty [Xv.fin (1 : ℝ)] [Xv.fin (2 : ℝ)]
    (fun _ => ("x")) 0
  ⟨h.1 (by norm_num), h.2.1 (by norm_num), h.2.2 Xv.nan rfl⟩

end ToTheMoon
